import Mathlib

/-!
Verification of the CSV streaming pipeline in `csv_parser.py`
(character-level tokenizer `CSVParser`, row-source adapter `CSVStream`,
and `WindowAggregator`), as a shallow embedding.

Modelling conventions:
* Python numbers (`int`/`float`) are modelled as exact rationals `ℚ`;
  floating-point rounding is not modelled (no claim depends on it —
  every numeric value exercised is exactly representable).
* Python `dict` (insertion-ordered, first-occurrence update) is modelled
  as an association list `Dict α := List (String × α)` with `dictGet`,
  `dictInsert` and `dictKeys` mirroring `d[k]`, `d[k] = v` and `d.keys()`.
* Generators are modelled as functions from the list of source lines to
  the list of yielded values; a raised exception becomes `Except.error`.
-/

/-- The four tokenizer states of `States` in `csv_parser.py`. -/
inductive States where
  | FIELD_START
  | QUOTED
  | UNQUOTED
  | QUOTE_IN_QUOTED
deriving DecidableEq, Repr

/-- Configuration of `CSVParser.__init__`: a delimiter and a quote character. -/
structure CSVParser where
  delimiter : Char
  quotechar : Char
deriving DecidableEq, Repr

namespace CSVParser

/-- Lookup in `self.transition_rules[state]` restricted to the explicit
character keys (the membership test `char in self.transition_rules[curr_state]`).
The delimiter entry is tested first so that, were `delimiter == quotechar`,
the later dict literal entry would win, as in Python. -/
def ruleLookup (p : CSVParser) (s : States) (c : Char) : Option States :=
  match s with
  | .FIELD_START =>
      if c = p.delimiter then some .FIELD_START
      else if c = p.quotechar then some .QUOTED
      else none
  | .UNQUOTED =>
      if c = p.delimiter then some .FIELD_START else none
  | .QUOTED =>
      if c = p.quotechar then some .QUOTE_IN_QUOTED else none
  | .QUOTE_IN_QUOTED =>
      if c = p.delimiter then some .FIELD_START
      else if c = p.quotechar then some .QUOTED
      else none

/-- The `"OTHERS"` entry of `self.transition_rules[state]`. -/
def others : States → States
  | .FIELD_START => .UNQUOTED
  | .UNQUOTED => .UNQUOTED
  | .QUOTED => .QUOTED
  | .QUOTE_IN_QUOTED => .QUOTE_IN_QUOTED

/-- One state-machine step: explicit rule if the character is a key of the
state's transition dict, otherwise the `"OTHERS"` entry. -/
def advance (p : CSVParser) (s : States) (c : Char) : States :=
  match p.ruleLookup s c with
  | some s2 => s2
  | none => others s

/-- The mutable locals of `CSVParser.parse_row`: current state,
`field_list`, and `field_content`. -/
structure RowAcc where
  state : States
  field_list : List String
  field_content : List Char
deriving DecidableEq, Repr

/-- The body of the `for char in line` loop of `CSVParser.parse_row`. -/
def stepChar (p : CSVParser) (acc : RowAcc) (c : Char) : RowAcc :=
  let acc2 : RowAcc :=
    match p.ruleLookup acc.state c with
    | some s2 =>
        -- escape the quote char
        let buf := if acc.state = .QUOTE_IN_QUOTED ∧ c = p.quotechar
                   then acc.field_content ++ [c] else acc.field_content
        ⟨s2, acc.field_list, buf⟩
    | none =>
        -- accumulate the field when it is not a special condition
        ⟨others acc.state, acc.field_list, acc.field_content ++ [c]⟩
  -- if the state is FIELD_START, emit the content and reset field_content
  if acc2.state = .FIELD_START then
    ⟨acc2.state, acc2.field_list ++ [String.mk acc2.field_content], []⟩
  else acc2

/-- `CSVParser.parse_row`: parse a single CSV line into fields.
At end of line the remaining buffer is emitted as the final field. -/
def parse_row (p : CSVParser) (line : String) : List String :=
  let fin := line.data.foldl (p.stepChar) ⟨.FIELD_START, [], []⟩
  fin.field_list ++ [String.mk fin.field_content]

/-- `CSVParser.is_complete_row`: run the transition table over the text and
return false iff the final state is `QUOTED`. -/
def is_complete_row (p : CSVParser) (text : String) : Bool :=
  decide ((text.data.foldl (p.advance) .FIELD_START) ≠ .QUOTED)

end CSVParser

/-- The default configuration `CSVParser()` (delimiter `,`, quotechar `"`). -/
def stdCSV : CSVParser := ⟨',', '"'⟩

/-- A typed cell value: Python `int`, `float` or `str` as produced by
`CSVStream._value`. Floats are modelled as exact rationals. -/
inductive Value where
  | int (n : Int)
  | float (q : ℚ)
  | text (s : String)
deriving DecidableEq, Repr

/-- Accumulate a digit list into a natural number. -/
def digitsToNat (ds : List Char) : Nat :=
  ds.foldl (fun n c => n * 10 + (c.toNat - 48)) 0

/-- Python's `int(s)` on the fragment exercised by the pipeline: an optional
sign followed by one or more base-10 digits (the surrounding-whitespace and
underscore allowances of CPython are not modelled; no input here uses them). -/
def pyInt (s : String) : Option Int :=
  match s.data with
  | [] => none
  | c :: rest =>
      let ds := if c = '-' ∨ c = '+' then rest else c :: rest
      if ds ≠ [] ∧ ds.all Char.isDigit then
        some (if c = '-' then -(digitsToNat ds : Int) else (digitsToNat ds : Int))
      else none

/-- Python's `float(s)` on the fragment exercised by the pipeline: an optional
sign followed by a decimal literal `digits`, `digits.digits`, `digits.` or
`.digits` (exponents, `inf` and `nan` are not modelled; no input here uses
them), returned as an exact rational. -/
def pyFloat (s : String) : Option ℚ :=
  match s.data with
  | [] => none
  | c :: rest =>
      let ds := if c = '-' ∨ c = '+' then rest else c :: rest
      let ipart := ds.takeWhile Char.isDigit
      let q : Option ℚ :=
        match ds.dropWhile Char.isDigit with
        | [] => if ipart = [] then none else some (digitsToNat ipart : ℚ)
        | '.' :: fpart =>
            if fpart.all Char.isDigit ∧ (ipart ≠ [] ∨ fpart ≠ []) then
              some ((digitsToNat ipart : ℚ) + (digitsToNat fpart : ℚ) / (10 ^ fpart.length))
            else none
        | _ => none
      q.map (fun v => if c = '-' then -v else v)

/-- An insertion-ordered string-keyed dictionary (Python `dict`). -/
abbrev Dict (α : Type) : Type := List (String × α)

/-- Python `d.get(k)` / `d[k]`: value at the first (and, in a genuine dict,
only) occurrence of the key. -/
def dictGet {α : Type} : Dict α → String → Option α
  | [], _ => none
  | (k2, v) :: d, k => if k2 = k then some v else dictGet d k

/-- Python `d[k] = v`: update the existing entry in place (keeping its
insertion position) or append a new entry. -/
def dictInsert {α : Type} : Dict α → String → α → Dict α
  | [], k, v => [(k, v)]
  | (k2, v2) :: d, k, v =>
      if k2 = k then (k2, v) :: d else (k2, v2) :: dictInsert d k v

/-- Python `list(d.keys())`: keys in insertion order. -/
def dictKeys {α : Type} (d : Dict α) : List String :=
  d.map Prod.fst

/-- `CSVStream.__init__` configuration: the wrapped tokenizer and the header
flag (default `True`). -/
structure CSVStream where
  parser : CSVParser
  header : Bool
deriving DecidableEq, Repr

instance {ε α : Type} [DecidableEq ε] [DecidableEq α] : DecidableEq (Except ε α) :=
  fun a b =>
    match a, b with
    | .ok x, .ok y =>
        if h : x = y then isTrue (by rw [h]) else isFalse (fun hc => by cases hc; exact h rfl)
    | .error e, .error f =>
        if h : e = f then isTrue (by rw [h]) else isFalse (fun hc => by cases hc; exact h rfl)
    | .ok _, .error _ => isFalse (fun hc => by cases hc)
    | .error _, .ok _ => isFalse (fun hc => by cases hc)

namespace CSVStream

/-- `CSVStream._value`: try `int(item)`, then `float(item)`, then fall back
to the raw text. -/
def _value (item : String) : Value :=
  match pyInt item with
  | some n => .int n
  | none =>
      match pyFloat item with
      | some q => .float q
      | none => .text item

/-- A row yielded by `CSVStream.iter_rows`: a name-keyed dict when a header
is configured, otherwise a list of cells. -/
inductive RowOut where
  | dictRow (d : Dict Value)
  | listRow (l : List Value)
deriving DecidableEq

/-- The `for i, item in enumerate(...)` loop of `iter_rows` in header mode:
walk the header names and the row's cells in parallel; cells at positions
at or beyond the header length hit the `i >= len(head): continue` branch
and are dropped. -/
def insertCells : List String → List String → Dict Value → Dict Value
  | _, [], d => d
  | [], _ :: _, d => d
  | k :: ks, c :: cs, d => insertCells ks cs (dictInsert d k (_value c))

/-- The `for j in range(i+1, len(head))` backfill loop of `iter_rows` in
header mode: bind each remaining header name to the empty string. -/
def backfill : List String → Dict Value → Dict Value
  | [], d => d
  | k :: ks, d => backfill ks (dictInsert d k (.text ""))

/-- Build the name-keyed mapping `iter_rows` yields for one tokenized row in
header mode (lines 122-138 of `csv_parser.py`): `head[i] ↦ _value(cells[i])`
for the cells that fit the header, then `head[j] ↦ ""` for the header
positions `j ≥ len(cells)` with no corresponding cell.  (`cells` is
`parse_row` output and hence never empty, matching Python where the loop
variable `i` is always defined.) -/
def buildRecord (head cells : List String) : Dict Value :=
  backfill (head.drop cells.length) (insertCells head cells [])

/-- The accumulation loop of `iter_rows`: join buffered physical lines with
`"\n"` until `is_complete_row` holds, then hand the completed logical row on;
at source exhaustion a pending incomplete buffer is simply abandoned, exactly
as the Python `for line in source` loop ends. Returns the list of completed
logical-row strings in order. -/
def completeRows (p : CSVParser) : List String → List String → List String
  | _, [] => []
  | row_list, line :: rest =>
      let row_list2 := row_list ++ [line]
      let row := String.intercalate "\n" row_list2
      if p.is_complete_row row then row :: completeRows p [] rest
      else completeRows p row_list2 rest

/-- `CSVStream.iter_rows` over a finite line source, as the list of yielded
rows.  With `header = True` the first physical line is consumed by the
unconditional `next(source)`; on an empty source that raises `StopIteration`
(surfacing as `RuntimeError` under PEP 479), modelled as `Except.error`. -/
def iter_rows (s : CSVStream) (source : List String) : Except String (List RowOut) :=
  if s.header then
    match source with
    | [] => .error "StopIteration"
    | h :: rest =>
        let head := s.parser.parse_row h
        .ok ((completeRows s.parser [] rest).map
          (fun row => .dictRow (buildRecord head (s.parser.parse_row row))))
  else
    .ok ((completeRows s.parser [] source).map
      (fun row => .listRow ((s.parser.parse_row row).map _value)))

end CSVStream

/-- A typed row as consumed by `WindowAggregator.add_row`: a name-keyed dict
of cell values. -/
abbrev AggRow := Dict Value

/-- The numeric reading of a cell, mirroring `isinstance(v, (int, float))`
followed by arithmetic use: `some` exactly for `int`/`float` cells. -/
def numOf : Value → Option ℚ
  | .int n => some (n : ℚ)
  | .float q => some q
  | .text _ => none

/-- State of a `WindowAggregator` (`__init__`): configuration plus the
mutable `_result`, `_window_start` and `_rows` fields. -/
structure WindowAggregator where
  window_type : String
  window_size : ℚ
  time_column : String
  _result : Dict ℚ
  _window_start : ℚ
  _rows : List AggRow
deriving DecidableEq

namespace WindowAggregator

/-- `WindowAggregator(window_type, window_size, time_column)`. -/
def init (window_type : String) (window_size : ℚ) (time_column : String) : WindowAggregator :=
  ⟨window_type, window_size, time_column, [], 0, []⟩

/-- One cell's contribution inside `_aggregate`: the `sum_`/`max_`/`min_`
updates for a numeric non-time column `k` with value `v`
(`result.get(sum_key, 0) + v`, `max(result.get(max_key, -inf), v)`,
`min(result.get(min_key, inf), v)`; the ±infinity defaults are modelled by
the absent-key case, which they are equivalent to for every finite `v`). -/
def foldCell (result : Dict ℚ) (k : String) (v : ℚ) : Dict ℚ :=
  let sum_key := "sum_" ++ k
  let max_key := "max_" ++ k
  let min_key := "min_" ++ k
  let r1 := dictInsert result sum_key ((dictGet result sum_key).getD 0 + v)
  let r2 := dictInsert r1 max_key (match dictGet r1 max_key with
    | some m => max m v
    | none => v)
  dictInsert r2 min_key (match dictGet r2 min_key with
    | some m => min m v
    | none => v)

/-- The `for k, v in row.items()` loop of `_aggregate`: skip the time column
and non-numeric values, fold numeric cells with `foldCell`. -/
def foldRow (time_column : String) (result : Dict ℚ) (row : AggRow) : Dict ℚ :=
  row.foldl (fun result kv =>
    if kv.1 = time_column then result
    else
      match numOf kv.2 with
      | some v => foldCell result kv.1 v
      | none => result) result

/-- `WindowAggregator._aggregate`: `{"count": len(rows)}`, the per-row
folds, then the `avg_` pass over the snapshot of keys taken after the sums
are complete. -/
def aggregate (time_column : String) (rows : List AggRow) : Dict ℚ :=
  let result : Dict ℚ := [("count", (rows.length : ℚ))]
  let result := rows.foldl (foldRow time_column) result
  (dictKeys result).foldl (fun acc key =>
    if String.startsWith key "sum_" then
      dictInsert acc ("avg_" ++ String.drop key 4)
        ((dictGet acc key).getD 0 / (dictGet acc "count").getD 0)
    else acc) result

/-- `WindowAggregator.flush`: `[]` when no rows are buffered, otherwise the
single-summary list, clearing `_rows` and `_result`. Returns the value
together with the post-state. -/
def flush (a : WindowAggregator) : List (Dict ℚ) × WindowAggregator :=
  if a._rows = [] then ([], a)
  else ([aggregate a.time_column a._rows],
        { a with _rows := [], _result := [] })

/-- The value returned by `add_row`: `None`, the completed-window summary
list of the tumbling branch, or the running aggregate dict of the sliding
branch. -/
inductive AddRowResult where
  | none
  | summary (l : List (Dict ℚ))
  | agg (d : Dict ℚ)
deriving DecidableEq

/-- `WindowAggregator.add_row`.  `row[self.time_column]` on a missing key
raises `KeyError`, and comparing a non-numeric timestamp raises `TypeError`;
both are modelled as `Except.error`.  The tumbling branch closes the open
window when `ts >= window_end` (`completed if completed else None` maps the
empty flush of a row-less window to `None`). -/
def add_row (a : WindowAggregator) (row : AggRow) :
    Except String (AddRowResult × WindowAggregator) :=
  match dictGet row a.time_column with
  | none => .error "KeyError"
  | some tv =>
      match numOf tv with
      | none => .error "TypeError"
      | some ts =>
          if a.window_type = "sliding" then
            let rows1 := a._rows ++ [row]
            -- filter to rows within [ts - window_size, ts]
            let rows2 := rows1.filter (fun r =>
              match (dictGet r a.time_column).bind numOf with
              | some t => decide (ts - a.window_size ≤ t)
              | none => false)
            .ok (.agg (aggregate a.time_column rows2), { a with _rows := rows2 })
          else
            let window_end := a._window_start + a.window_size
            if window_end ≤ ts then
              let fl := a.flush
              let a1 := { fl.2 with
                _window_start := (⌊ts / a.window_size⌋ : ℚ) * a.window_size }
              let rows2 := a1._rows ++ [row]
              let a2 := { a1 with
                _rows := rows2,
                _result := aggregate a.time_column rows2 }
              .ok (match fl.1 with
                   | [] => .none
                   | x :: xs => .summary (x :: xs), a2)
            else
              let rows2 := a._rows ++ [row]
              .ok (.none, { a with
                _rows := rows2,
                _result := aggregate a.time_column rows2 })

end WindowAggregator

/-- Feed a list of rows to `add_row` in order, collecting the returned
values and the final aggregator state (`None` if any call raised). -/
def runAddRows (a : WindowAggregator) :
    List AggRow → Option (List WindowAggregator.AddRowResult × WindowAggregator)
  | [] => some ([], a)
  | r :: rs =>
      match a.add_row r with
      | .ok (res, a2) => (runAddRows a2 rs).map (fun p => (res :: p.1, p.2))
      | .error _ => none

/-- Feed a list of rows to `add_row` in order, collecting the aggregator
state after every call (`None` if any call raised). -/
def processTrace (a : WindowAggregator) :
    List AggRow → Option (List WindowAggregator)
  | [] => some []
  | r :: rs =>
      match a.add_row r with
      | .ok (_, a2) => (processTrace a2 rs).map (fun tr => a2 :: tr)
      | .error _ => none

/-- The tumbling-window state invariant asserted by the spec: the open
window's start is aligned to an integer multiple of `window_size` (so
`window_start = floor(t / window_size) * window_size` for each buffered
row), and every buffered row's timestamp lies in
`[window_start, window_start + window_size)`. -/
def TumblingInv (a : WindowAggregator) : Prop :=
  (∃ k : ℤ, a._window_start = (k : ℚ) * a.window_size) ∧
  ∀ r ∈ a._rows, ∃ t : ℚ,
    (dictGet r a.time_column).bind numOf = some t ∧
    a._window_start ≤ t ∧ t < a._window_start + a.window_size ∧
    a._window_start = (⌊t / a.window_size⌋ : ℚ) * a.window_size

/-- The shape policy of a header-mode `iter_rows` row: it is built by
`buildRecord` from some (necessarily nonempty) tokenized cell list, its
keys are exactly the header names, and each header position is bound to
the coerced cell at that position — or to the empty text when the row has
no cell there. -/
def HeaderShape (head : List String) (ro : CSVStream.RowOut) : Prop :=
  ∃ cells : List String, cells ≠ [] ∧
    ro = .dictRow (CSVStream.buildRecord head cells) ∧
    dictKeys (CSVStream.buildRecord head cells) = head ∧
    ∀ j : Fin head.length,
      dictGet (CSVStream.buildRecord head cells) (head.get j) =
        some (if hj : (j : ℕ) < cells.length
              then CSVStream._value (cells.get ⟨(j : ℕ), hj⟩)
              else .text "")

example : stdCSV.parse_row "a,b,c" = ["a", "b", "c"] := by decide
example : stdCSV.parse_row "" = [""] := by decide
example : stdCSV.parse_row "\"say \"\"hi\"\"\",b" = ["say \"hi\"", "b"] := by decide
example : stdCSV.parse_row "\"a\"b\"c,d" = ["ab\"c,d"] := by decide
example : stdCSV.is_complete_row "\"ab" = false := by decide
example : stdCSV.is_complete_row "\"ab\ncd\"" = true := by decide
example : CSVStream._value "42" = .int 42 := by decide
example : CSVStream._value "-7" = .int (-7) := by decide
example : CSVStream._value "3.14" = .float (157/50) := by with_unfolding_all decide
example : CSVStream._value "-2.5" = .float (-5/2) := by with_unfolding_all decide
example : CSVStream._value "3." = .float 3 := by with_unfolding_all decide
example : CSVStream._value ".5" = .float (1/2) := by with_unfolding_all decide
example : CSVStream._value "hello" = .text "hello" := by decide
example : CSVStream._value "" = .text "" := by decide
example : CSVStream._value "1.2.3" = .text "1.2.3" := by decide
example :
    CSVStream.iter_rows ⟨stdCSV, false⟩ ["a,b", "\"cd"] =
      .ok [.listRow [.text "a", .text "b"]] := by decide
example :
    CSVStream.iter_rows ⟨stdCSV, true⟩ ["a,b,c", "1,2"] =
      .ok [.dictRow [("a", .int 1), ("b", .int 2), ("c", .text "")]] := by decide
example : CSVStream.iter_rows ⟨stdCSV, true⟩ [] = .error "StopIteration" := by rfl

example :
    runAddRows (WindowAggregator.init "tumbling" 10 "t")
      [[("v", .int 10), ("t", .float 1)],
       [("v", .int 20), ("t", .float 5)],
       [("v", .int 30), ("t", .float 12)],
       [("v", .int 40), ("t", .float 15)]] =
    some ([.none, .none,
           .summary [[("count", 2), ("sum_v", 30), ("max_v", 20), ("min_v", 10), ("avg_v", 15)]],
           .none],
          ⟨"tumbling", 10, "t",
           [("count", 2), ("sum_v", 70), ("max_v", 40), ("min_v", 30), ("avg_v", 35)],
           10,
           [[("v", .int 30), ("t", .float 12)], [("v", .int 40), ("t", .float 15)]]⟩) := by
  with_unfolding_all decide

example :
    (WindowAggregator.flush
      ⟨"tumbling", 10, "t",
       [("count", 2), ("sum_v", 70), ("max_v", 40), ("min_v", 30), ("avg_v", 35)],
       10,
       [[("v", .int 30), ("t", .float 12)], [("v", .int 40), ("t", .float 15)]]⟩).1 =
    [[("count", 2), ("sum_v", 70), ("max_v", 40), ("min_v", 30), ("avg_v", 35)]] := by
  with_unfolding_all decide

section DictLemmas

variable {α : Type}

lemma dictGet_insert_self (d : Dict α) (k : String) (v : α) :
    dictGet (dictInsert d k v) k = some v := by
  induction d with
  | nil => simp [dictInsert, dictGet]
  | cons hd tl ih =>
      obtain ⟨k2, v2⟩ := hd
      by_cases h : k2 = k
      · simp [dictInsert, dictGet, h]
      · simp [dictInsert, dictGet, h, ih]

lemma dictGet_insert_ne (d : Dict α) (k k2 : String) (v : α) (h : k2 ≠ k) :
    dictGet (dictInsert d k v) k2 = dictGet d k2 := by
  induction d with
  | nil =>
      have hk : k ≠ k2 := Ne.symm h
      simp [dictInsert, dictGet, hk]
  | cons hd tl ih =>
      obtain ⟨k3, v3⟩ := hd
      by_cases h3 : k3 = k
      · have hk : k ≠ k2 := Ne.symm h
        simp [dictInsert, dictGet, h3, hk]
      · simp [dictInsert, dictGet, h3, ih]

lemma dictInsert_fresh (d : Dict α) (k : String) (v : α) (h : dictGet d k = none) :
    dictInsert d k v = d ++ [(k, v)] := by
  induction d with
  | nil => simp [dictInsert]
  | cons hd tl ih =>
      obtain ⟨k2, v2⟩ := hd
      by_cases h2 : k2 = k
      · simp [dictGet, h2] at h
      · simp [dictGet, h2] at h
        simp [dictInsert, h2, ih h]

lemma dictGet_append (d1 d2 : Dict α) (k : String) :
    dictGet (d1 ++ d2) k =
      match dictGet d1 k with
      | some v => some v
      | none => dictGet d2 k := by
  induction d1 with
  | nil => simp [dictGet]
  | cons hd tl ih =>
      obtain ⟨k2, v2⟩ := hd
      by_cases h2 : k2 = k
      · simp [dictGet, h2]
      · simp [dictGet, h2, ih]

lemma dictGet_eq_none_of_not_mem (d : Dict α) (k : String) (h : k ∉ dictKeys d) :
    dictGet d k = none := by
  induction d with
  | nil => rfl
  | cons hd tl ih =>
      obtain ⟨k2, v2⟩ := hd
      simp only [dictKeys, List.map_cons, List.mem_cons, not_or] at h
      have hk : k2 ≠ k := fun hc => h.1 hc.symm
      simp [dictGet, hk]
      exact ih h.2

lemma dictGet_of_mem_nodup (d : Dict α) (k : String) (v : α)
    (hmem : (k, v) ∈ d) (hnd : (dictKeys d).Nodup) :
    dictGet d k = some v := by
  induction d with
  | nil => simp at hmem
  | cons hd tl ih =>
      obtain ⟨k2, v2⟩ := hd
      simp only [dictKeys, List.map_cons, List.nodup_cons] at hnd
      rcases List.mem_cons.mp hmem with h | h
      · have h1 : k = k2 := congrArg Prod.fst h
        have h2 : v = v2 := congrArg Prod.snd h
        simp [dictGet, h1.symm, h2]
      · have hk : k2 ≠ k := by
          intro hc
          subst hc
          exact hnd.1 (List.mem_map.mpr ⟨(k2, v), h, rfl⟩)
        simp [dictGet, hk]
        exact ih h hnd.2

end DictLemmas

section KeyNameLemmas

/-- Strings with distinct first characters are distinct; applied to the
aggregate's generated keys. -/
lemma append_ne_of_head_ne (p q k : String) (cp cq : Char) (tp tq : List Char)
    (hp : p.data = cp :: tp) (hq : q.data = cq :: tq) (hne : cp ≠ cq) :
    p ++ k ≠ q := by
  intro h
  have h2 : (p ++ k).data = q.data := by rw [h]
  rw [String.data_append, hp, hq] at h2
  exact hne (List.cons.injEq .. ▸ h2).1

lemma sum_key_ne_count (k : String) : "sum_" ++ k ≠ "count" :=
  append_ne_of_head_ne _ _ _ 's' 'c' _ _ rfl rfl (by decide)

lemma max_key_ne_count (k : String) : "max_" ++ k ≠ "count" :=
  append_ne_of_head_ne _ _ _ 'm' 'c' _ _ rfl rfl (by decide)

lemma min_key_ne_count (k : String) : "min_" ++ k ≠ "count" :=
  append_ne_of_head_ne _ _ _ 'm' 'c' _ _ rfl rfl (by decide)

lemma avg_key_ne_count (k : String) : "avg_" ++ k ≠ "count" :=
  append_ne_of_head_ne _ _ _ 'a' 'c' _ _ rfl rfl (by decide)

end KeyNameLemmas

section AggregateLemmas

/-- `foldCell` only touches `sum_`/`max_`/`min_` keys, so the `"count"`
entry survives it. -/
lemma dictGet_foldCell_count (result : Dict ℚ) (k : String) (v : ℚ) :
    dictGet (WindowAggregator.foldCell result k v) "count" = dictGet result "count" := by
  unfold WindowAggregator.foldCell
  rw [dictGet_insert_ne _ _ _ _ (fun h => min_key_ne_count k h.symm),
      dictGet_insert_ne _ _ _ _ (fun h => max_key_ne_count k h.symm),
      dictGet_insert_ne _ _ _ _ (fun h => sum_key_ne_count k h.symm)]

lemma dictGet_foldRow_count (tc : String) (result : Dict ℚ) (row : AggRow) :
    dictGet (WindowAggregator.foldRow tc result row) "count" = dictGet result "count" := by
  unfold WindowAggregator.foldRow
  induction row generalizing result with
  | nil => rfl
  | cons hd tl ih =>
      simp only [List.foldl_cons]
      rw [ih]
      by_cases h1 : hd.1 = tc
      · simp [h1]
      · simp only [h1, if_false]
        cases numOf hd.2 with
        | none => rfl
        | some v => exact dictGet_foldCell_count ..

/-- The `"count"` entry of `_aggregate` is the number of rows. -/
lemma dictGet_aggregate_count (tc : String) (rows : List AggRow) :
    dictGet (WindowAggregator.aggregate tc rows) "count" = some (rows.length : ℚ) := by
  unfold WindowAggregator.aggregate
  have hbase : ∀ (res : Dict ℚ), dictGet res "count" = some (rows.length : ℚ) →
      dictGet ((dictKeys res).foldl (fun acc key =>
        if String.startsWith key "sum_" then
          dictInsert acc ("avg_" ++ String.drop key 4)
            ((dictGet acc key).getD 0 / (dictGet acc "count").getD 0)
        else acc) res) "count" = some (rows.length : ℚ) := by
    intro res hres
    have : ∀ (ks : List String) (acc : Dict ℚ), dictGet acc "count" = some (rows.length : ℚ) →
        dictGet (ks.foldl (fun acc key =>
          if String.startsWith key "sum_" then
            dictInsert acc ("avg_" ++ String.drop key 4)
              ((dictGet acc key).getD 0 / (dictGet acc "count").getD 0)
          else acc) acc) "count" = some (rows.length : ℚ) := by
      intro ks
      induction ks with
      | nil => intro acc h; exact h
      | cons k ks ih =>
          intro acc h
          simp only [List.foldl_cons]
          apply ih
          by_cases hs : String.startsWith k "sum_"
          · simp only [hs, if_true]
            rw [dictGet_insert_ne _ _ _ _ (fun hc => avg_key_ne_count _ hc.symm)]
            exact h
          · simpa [hs] using h
    exact this _ res hres
  apply hbase
  have : ∀ (rs : List AggRow) (res : Dict ℚ), dictGet res "count" = some (rows.length : ℚ) →
      dictGet (rs.foldl (WindowAggregator.foldRow tc) res) "count" = some (rows.length : ℚ) := by
    intro rs
    induction rs with
    | nil => intro res h; exact h
    | cons r rs ih =>
        intro res h
        simp only [List.foldl_cons]
        exact ih _ ((dictGet_foldRow_count tc res r).trans h)
  exact this rows _ (by simp [dictGet])

end AggregateLemmas

section FloorLemmas

lemma floor_mul_le (t s : ℚ) (hs : 0 < s) : (⌊t / s⌋ : ℚ) * s ≤ t := by
  rw [← le_div_iff₀ hs]
  exact Int.floor_le (t / s)

lemma lt_floor_succ_mul (t s : ℚ) (hs : 0 < s) : t < ((⌊t / s⌋ : ℚ) + 1) * s := by
  rw [← div_lt_iff₀ hs]
  exact Int.lt_floor_add_one (t / s)

lemma floor_div_eq_of_bounds (t s : ℚ) (k : ℤ) (hs : 0 < s)
    (h1 : (k : ℚ) * s ≤ t) (h2 : t < ((k : ℚ) + 1) * s) : ⌊t / s⌋ = k := by
  rw [Int.floor_eq_iff]
  constructor
  · rw [le_div_iff₀ hs]; exact h1
  · rw [div_lt_iff₀ hs]; exact_mod_cast h2

end FloorLemmas

/-- One tumbling `add_row` step preserves `TumblingInv`, provided the
incoming timestamp is at least the current `_window_start`; the new
`_window_start` stays at or below the processed timestamp and the
configuration fields are unchanged. -/
lemma tumbling_step_inv (a : WindowAggregator) (row : AggRow) (ts : ℚ)
    (hty : a.window_type ≠ "sliding") (hpos : 0 < a.window_size)
    (hts : (dictGet row a.time_column).bind numOf = some ts)
    (hlo : a._window_start ≤ ts)
    (hinv : TumblingInv a) :
    ∃ res a2, a.add_row row = .ok (res, a2) ∧ TumblingInv a2 ∧
      a2._window_start ≤ ts ∧
      a2.window_type = a.window_type ∧ a2.window_size = a.window_size ∧
      a2.time_column = a.time_column := by
  obtain ⟨tv, hget, hnum⟩ : ∃ tv, dictGet row a.time_column = some tv ∧ numOf tv = some ts := by
    cases hg : dictGet row a.time_column with
    | none => rw [hg] at hts; simp [Option.bind] at hts
    | some tv => rw [hg] at hts; exact ⟨tv, rfl, hts⟩
  unfold WindowAggregator.add_row
  rw [hget]
  simp only [hnum, hty, if_false]
  by_cases hcross : a._window_start + a.window_size ≤ ts
  · rw [if_pos hcross]
    have hfl2 : a.flush.2._rows = [] := by
      unfold WindowAggregator.flush
      by_cases hr : a._rows = [] <;> simp [hr]
    have hflty : a.flush.2.window_type = a.window_type := by
      unfold WindowAggregator.flush
      by_cases hr : a._rows = [] <;> simp [hr]
    have hflsz : a.flush.2.window_size = a.window_size := by
      unfold WindowAggregator.flush
      by_cases hr : a._rows = [] <;> simp [hr]
    have hfltc : a.flush.2.time_column = a.time_column := by
      unfold WindowAggregator.flush
      by_cases hr : a._rows = [] <;> simp [hr]
    refine ⟨_, _, rfl, ?_, ?_, by simp [hflty], by simp [hflsz], by simp [hfltc]⟩
    · constructor
      · exact ⟨⌊ts / a.window_size⌋, by simp [hflsz]⟩
      · intro r hr
        simp only [hfl2, List.nil_append, List.mem_singleton] at hr
        subst hr
        refine ⟨ts, by simp [hfltc, hget, hnum], ?_, ?_, by simp [hflsz]⟩
        · simp only [hflsz]
          exact floor_mul_le ts a.window_size hpos
        · simp only [hflsz]
          have := lt_floor_succ_mul ts a.window_size hpos
          linarith [this]
    · simp only [hflsz]
      exact floor_mul_le ts a.window_size hpos
  · rw [if_neg hcross]
    push_neg at hcross
    obtain ⟨⟨k, hk⟩, hrows⟩ := hinv
    have hfloor : a._window_start = (⌊ts / a.window_size⌋ : ℚ) * a.window_size := by
      have : ⌊ts / a.window_size⌋ = k := by
        apply floor_div_eq_of_bounds ts a.window_size k hpos
        · rw [← hk]; exact hlo
        · have : ((k : ℚ) + 1) * a.window_size = a._window_start + a.window_size := by
            rw [hk]; ring
          rw [this]; exact hcross
      rw [this, ← hk]
    refine ⟨_, _, rfl, ?_, hlo, rfl, rfl, rfl⟩
    constructor
    · exact ⟨k, hk⟩
    · intro r hr
      rcases List.mem_append.mp hr with h1 | h1
      · exact hrows r h1
      · rw [List.mem_singleton] at h1
        subst h1
        exact ⟨ts, by simp [hget, hnum], hlo, hcross, hfloor⟩

/-- Core induction for C8: starting from any tumbling state satisfying
`TumblingInv` whose `_window_start` is below all incoming timestamps, a run
over valid rows with nondecreasing timestamps succeeds and every
intermediate state satisfies `TumblingInv`. -/
lemma processTrace_inv (tc : String) :
    ∀ (l : List (ℚ × AggRow)) (a : WindowAggregator),
      a.window_type ≠ "sliding" → a.time_column = tc → 0 < a.window_size →
      TumblingInv a →
      (∀ p ∈ l, (dictGet p.2 tc).bind numOf = some p.1) →
      List.Sorted (fun x y : ℚ => x ≤ y) (l.map Prod.fst) →
      (∀ p ∈ l, a._window_start ≤ p.1) →
      ∃ tr, processTrace a (l.map Prod.snd) = some tr ∧ ∀ x ∈ tr, TumblingInv x := by
  intro l
  induction l with
  | nil =>
      intro a _ _ _ _ _ _ _
      exact ⟨[], rfl, by simp⟩
  | cons p rest ih =>
      intro a hty htc hpos hinv hvalid hsorted hws
      obtain ⟨t, row⟩ := p
      obtain ⟨res, a2, hstep, hinv2, hw2, hpty, hpsz, hptc⟩ :=
        tumbling_step_inv a row t hty hpos
          (by rw [htc] at *; exact hvalid (t, row) (List.mem_cons_self ..))
          (hws (t, row) (List.mem_cons_self ..)) hinv
      rw [List.map_cons] at hsorted
      rw [List.sorted_cons] at hsorted
      obtain ⟨hhead, htail⟩ := hsorted
      obtain ⟨tr2, htr2, hall2⟩ := ih a2
        (by rw [hpty]; exact hty) (by rw [hptc]; exact htc) (by rw [hpsz]; exact hpos)
        hinv2
        (fun q hq => hvalid q (List.mem_cons_of_mem _ hq))
        htail
        (fun q hq => le_trans hw2 (hhead q.1 (List.mem_map.mpr ⟨q, hq, rfl⟩)))
      refine ⟨a2 :: tr2, ?_, ?_⟩
      · simp only [List.map_cons]
        unfold processTrace
        rw [hstep]
        simp [htr2]
      · intro x hx
        rcases List.mem_cons.mp hx with h | h
        · rw [h]; exact hinv2
        · exact hall2 x h

/-- C8 (counterexample): the invariant fails without an input-order
assumption — feeding timestamps 15 then 3 leaves `_window_start = 10`
while the buffered second row has timestamp 3, violating
`window_start <= timestamp`. -/
theorem tumbling_invariant_cex :
    runAddRows (WindowAggregator.init "tumbling" 10 "t")
      [[("t", .int 15)], [("t", .int 3)]] =
      some ([.none, .none],
        ⟨"tumbling", 10, "t", [("count", 2)], 10,
         [[("t", Value.int 15)], [("t", Value.int 3)]]⟩) ∧
    (dictGet [(("t" : String), Value.int 3)] "t").bind numOf = some (3 : ℚ) ∧
    ¬ ((10 : ℚ) ≤ 3) := by
  with_unfolding_all decide

/-- C8 (amended): under the input discipline the spec assumes — timestamps
nonnegative and fed in nondecreasing order — every state after an `add_row`
call on a fresh tumbling aggregator satisfies the claimed invariants:
`_window_start` is an integer multiple of `window_size`, every buffered
row's timestamp `t` satisfies `window_start ≤ t < window_start +
window_size` (with `window_end` computed as `window_start + window_size`),
and `window_start = floor(t / window_size) * window_size` for each buffered
row, in particular for the row that opened the window. -/
theorem tumbling_window_invariants (size : ℚ) (tc : String) (hpos : 0 < size)
    (l : List (ℚ × AggRow))
    (hts : ∀ p ∈ l, (dictGet p.2 tc).bind numOf = some p.1)
    (hnn : ∀ p ∈ l, 0 ≤ p.1)
    (hsorted : List.Sorted (fun x y : ℚ => x ≤ y) (l.map Prod.fst)) :
    ∃ tr, processTrace (WindowAggregator.init "tumbling" size tc) (l.map Prod.snd) =
        some tr ∧ ∀ x ∈ tr, TumblingInv x := by
  have h1 : (WindowAggregator.init "tumbling" size tc).window_type ≠ "sliding" := by
    show ("tumbling" : String) ≠ "sliding"
    decide
  have h2 : TumblingInv (WindowAggregator.init "tumbling" size tc) := by
    constructor
    · exact ⟨0, by simp [WindowAggregator.init]⟩
    · intro r hr
      simp [WindowAggregator.init] at hr
  exact processTrace_inv tc l _ h1 rfl hpos h2 hts hsorted (fun p hp => hnn p hp)

/-- Witness for the C8 amended theorem at a concrete input. -/
theorem tumbling_window_invariants_witness :
    ∃ tr, processTrace (WindowAggregator.init "tumbling" 10 "t")
        ([((1 : ℚ), [(("t" : String), Value.int 1)]), (12, [("t", Value.int 12)])].map Prod.snd) =
        some tr ∧ ∀ x ∈ tr, TumblingInv x :=
  tumbling_window_invariants 10 "t" (by with_unfolding_all decide)
    [((1 : ℚ), [(("t" : String), Value.int 1)]), (12, [("t", Value.int 12)])]
    (by with_unfolding_all decide) (by with_unfolding_all decide)
    (by with_unfolding_all decide)

/-- C10: with header enabled (the default), `iter_rows` on an empty line
source raises (the unconditional header `next(source)` hits `StopIteration`,
surfacing as `RuntimeError` under generator semantics, modelled as
`Except.error`) instead of yielding an empty sequence of rows. -/
theorem iter_rows_header_empty_source_errors (p : CSVParser) :
    CSVStream.iter_rows ⟨p, true⟩ [] = .error "StopIteration" := rfl

/-- C6 (code evaluated at the failing input): `parse_row` itself returns the
raw cell strings `["42", "3.14", "hello"]`, not typed cells; the
int-then-float-then-text coercion the claim describes lives in
`CSVStream._value`, which maps those strings to
`[Integer 42, Float 3.14, Text "hello"]`. -/
theorem parse_row_raw_value_coerces :
    stdCSV.parse_row "42,3.14,hello" = ["42", "3.14", "hello"] ∧
    ["42", "3.14", "hello"].map CSVStream._value =
      [.int 42, .float (157/50), .text "hello"] ∧
    CSVStream._value "42" ≠ .text "42" := by
  with_unfolding_all decide

/-- C3 (counterexample): from `QUOTE_IN_QUOTED`, an ordinary character
(here `b`) leaves the machine in `QUOTE_IN_QUOTED`, not `UNQUOTED`; and on
`"a"b"c,d` the quote after `b` still acts as an escape resuming `QUOTED`,
so the following delimiter is buffered as cell text and one single cell
`ab"c,d` is produced (the claimed `UNQUOTED` recovery would have produced
the two cells `ab"c` and `d`). -/
theorem quote_in_quoted_others_cex :
    stdCSV.advance .QUOTE_IN_QUOTED 'b' = .QUOTE_IN_QUOTED ∧
    stdCSV.advance .QUOTE_IN_QUOTED 'b' ≠ .UNQUOTED ∧
    stdCSV.parse_row "\"a\"b\"c,d" = ["ab\"c,d"] := by decide

/-- C3 (amended): in state `QUOTE_IN_QUOTED`, reading a character that is
neither the quote character nor the delimiter buffers it and STAYS in
`QUOTE_IN_QUOTED`; a quote character read later in that cell is buffered
and returns to `QUOTED` (the doubled-quote escape remains active). -/
theorem quote_in_quoted_others_stays (p : CSVParser) (acc : CSVParser.RowAcc) (c : Char)
    (hst : acc.state = .QUOTE_IN_QUOTED)
    (hq : c ≠ p.quotechar) (hd : c ≠ p.delimiter) (hqd : p.quotechar ≠ p.delimiter) :
    p.stepChar acc c = ⟨.QUOTE_IN_QUOTED, acc.field_list, acc.field_content ++ [c]⟩ ∧
    p.stepChar acc p.quotechar =
      ⟨.QUOTED, acc.field_list, acc.field_content ++ [p.quotechar]⟩ := by
  obtain ⟨st, fl, fc⟩ := acc
  simp only at hst
  subst hst
  constructor
  · unfold CSVParser.stepChar CSVParser.ruleLookup
    simp [hq, hd, CSVParser.others]
  · unfold CSVParser.stepChar CSVParser.ruleLookup
    simp [hqd]

/-- Witness for the C3 amended theorem at a concrete input. -/
theorem quote_in_quoted_others_stays_witness :
    stdCSV.stepChar ⟨.QUOTE_IN_QUOTED, [], ['a']⟩ 'b' =
      ⟨.QUOTE_IN_QUOTED, [], ['a', 'b']⟩ ∧
    stdCSV.stepChar ⟨.QUOTE_IN_QUOTED, [], ['a']⟩ '"' =
      ⟨.QUOTED, [], ['a', '"']⟩ :=
  quote_in_quoted_others_stays stdCSV ⟨.QUOTE_IN_QUOTED, [], ['a']⟩ 'b'
    rfl (by decide) (by decide) (by decide)

/-- C5 (counterexample): a source ending with the incomplete logical row
`"cd` (unterminated quote) yields only the preceding complete row; the
partial accumulation is dropped, not tokenized and yielded as a last row. -/
theorem iter_rows_drops_trailing_incomplete_cex :
    CSVStream.iter_rows ⟨stdCSV, false⟩ ["a,b", "\"cd"] =
      .ok [.listRow [.text "a", .text "b"]] ∧
    stdCSV.is_complete_row "\"cd" = false := by decide

/-- C5 (amended): when the source is exhausted, a pending incomplete
accumulation is silently discarded — the row loop of `iter_rows` emits
nothing at exhaustion, and every logical row it ever hands on satisfies
`is_complete_row`. -/
theorem iter_rows_only_complete_rows (p : CSVParser) (acc src : List String) :
    CSVStream.completeRows p acc [] = [] ∧
    ∀ row ∈ CSVStream.completeRows p acc src, p.is_complete_row row = true := by
  constructor
  · rfl
  · induction src generalizing acc with
    | nil => intro row h; simp [CSVStream.completeRows] at h
    | cons l ls ih =>
        intro row h
        unfold CSVStream.completeRows at h
        by_cases hc : p.is_complete_row (String.intercalate "\n" (acc ++ [l])) = true
        · rw [if_pos hc] at h
          rcases List.mem_cons.mp h with h1 | h1
          · rw [h1]; exact hc
          · exact ih [] row h1
        · rw [if_neg hc] at h
          exact ih (acc ++ [l]) row h

/-- Witness for the C5 amended theorem at a concrete input. -/
theorem iter_rows_only_complete_rows_witness :
    CSVStream.completeRows stdCSV ["\"cd"] [] = [] ∧
    stdCSV.is_complete_row "a,b" = true :=
  ⟨(iter_rows_only_complete_rows stdCSV ["\"cd"] []).1,
   (iter_rows_only_complete_rows stdCSV [] ["a,b"]).2 "a,b" (by decide)⟩

/-- C2 (counterexample): after one `add_row` on a fresh tumbling aggregator
the state's `_rows` buffer holds the constituent row itself, so the retained
state is not just a fixed set of running aggregates. -/
theorem tumbling_retains_rows_cex :
    (WindowAggregator.init "tumbling" 10 "t").add_row [("v", .int 10), ("t", .float 1)] =
      .ok (.none,
        ⟨"tumbling", 10, "t",
         [("count", 1), ("sum_v", 10), ("max_v", 10), ("min_v", 10), ("avg_v", 10)],
         0,
         [[("v", .int 10), ("t", .float 1)]]⟩) ∧
    ([[("v", Value.int 10), ("t", Value.float 1)]] : List AggRow) ≠ [] := by
  with_unfolding_all decide

/-- C2 (amended): on every tumbling `add_row` the incoming row is appended
to the retained `_rows` buffer (which is cleared only when the window
closes), and the open window's aggregates are recomputed from all retained
rows — the state holds the constituent rows of the open window, not only
fixed running aggregates. -/
theorem tumbling_add_row_retains_rows (a : WindowAggregator) (row : AggRow) (ts : ℚ)
    (hty : a.window_type ≠ "sliding")
    (hts : (dictGet row a.time_column).bind numOf = some ts) :
    ∃ res a2, a.add_row row = .ok (res, a2) ∧
      a2._rows = (if a._window_start + a.window_size ≤ ts then [] else a._rows) ++ [row] ∧
      a2._result = WindowAggregator.aggregate a.time_column a2._rows := by
  obtain ⟨tv, hget, hnum⟩ : ∃ tv, dictGet row a.time_column = some tv ∧ numOf tv = some ts := by
    cases hg : dictGet row a.time_column with
    | none => rw [hg] at hts; simp [Option.bind] at hts
    | some tv => rw [hg] at hts; exact ⟨tv, rfl, hts⟩
  unfold WindowAggregator.add_row
  rw [hget]
  simp only [hnum, hty, if_false]
  by_cases hcross : a._window_start + a.window_size ≤ ts
  · simp only [if_pos hcross]
    refine ⟨_, _, rfl, ?_, ?_⟩
    · by_cases hr : a._rows = [] <;> simp [WindowAggregator.flush, hr]
    · by_cases hr : a._rows = [] <;> simp [WindowAggregator.flush, hr]
  · simp only [if_neg hcross]
    exact ⟨_, _, rfl, by simp [hcross], by simp [hcross]⟩

/-- Witness for the C2 amended theorem at a concrete input. -/
theorem tumbling_add_row_retains_rows_witness :
    ∃ res a2,
      (WindowAggregator.init "tumbling" 10 "t").add_row [("t", Value.float 1)] =
        .ok (res, a2) ∧
      a2._rows = (if (0 : ℚ) + 10 ≤ 1 then []
                  else (WindowAggregator.init "tumbling" 10 "t")._rows) ++ [[("t", Value.float 1)]] ∧
      a2._result = WindowAggregator.aggregate "t" a2._rows :=
  tumbling_add_row_retains_rows (WindowAggregator.init "tumbling" 10 "t")
    [("t", Value.float 1)] 1 (by decide) (by with_unfolding_all decide)

/-- C1 (code evaluated at the failing input): running the end-to-end
scenario (window_size 10, time column `t`, value column `v`, rows
`[10,1.0], [20,5.0], [30,12.0], [40,15.0]`) produces `None, None,
[summary], None` and a final flushed summary, with the claimed numeric
values — but each summary's keys are `count, sum_v, max_v, min_v, avg_v`
(per-column names, wrapped in a list), with no `window_start`,
`window_end`, `sum`, `avg`, `min` or `max` fields. -/
theorem tumbling_scenario_eval :
    runAddRows (WindowAggregator.init "tumbling" 10 "t")
      [[("v", .int 10), ("t", .float 1)],
       [("v", .int 20), ("t", .float 5)],
       [("v", .int 30), ("t", .float 12)],
       [("v", .int 40), ("t", .float 15)]] =
    some ([.none, .none,
           .summary [[("count", 2), ("sum_v", 30), ("max_v", 20), ("min_v", 10), ("avg_v", 15)]],
           .none],
          ⟨"tumbling", 10, "t",
           [("count", 2), ("sum_v", 70), ("max_v", 40), ("min_v", 30), ("avg_v", 35)],
           10,
           [[("v", .int 30), ("t", .float 12)], [("v", .int 40), ("t", .float 15)]]⟩) ∧
    (WindowAggregator.flush
      ⟨"tumbling", 10, "t",
       [("count", 2), ("sum_v", 70), ("max_v", 40), ("min_v", 30), ("avg_v", 35)],
       10,
       [[("v", .int 30), ("t", .float 12)], [("v", .int 40), ("t", .float 15)]]⟩).1 =
      [[("count", 2), ("sum_v", 70), ("max_v", 40), ("min_v", 30), ("avg_v", 35)]] ∧
    dictKeys [(("count" : String), (2 : ℚ)), ("sum_v", 30), ("max_v", 20), ("min_v", 10), ("avg_v", 15)] =
      ["count", "sum_v", "max_v", "min_v", "avg_v"] ∧
    "window_start" ∉ dictKeys [(("count" : String), (2 : ℚ)), ("sum_v", 30), ("max_v", 20), ("min_v", 10), ("avg_v", 15)] ∧
    "sum" ∉ dictKeys [(("count" : String), (2 : ℚ)), ("sum_v", 30), ("max_v", 20), ("min_v", 10), ("avg_v", 15)] := by
  with_unfolding_all decide

/-- C4: on a tumbling aggregator whose open window `[window_start,
window_start + window_size)` holds at least one row (and is aligned to a
multiple of the window size, as every reachable window is), an `add_row`
whose timestamp is exactly `window_end = window_start + window_size` closes
the window — returning the summary aggregated over the previously buffered
rows only — and folds the incoming row into the next window
`[window_end, window_end + window_size)`: the new `_window_start` is the old
`window_end` and the new buffer is `[row]`. -/
theorem add_row_boundary_next_window (a : WindowAggregator) (row : AggRow) (ts : ℚ) (k : ℤ)
    (hty : a.window_type ≠ "sliding")
    (hpos : 0 < a.window_size)
    (hne : a._rows ≠ [])
    (hts : (dictGet row a.time_column).bind numOf = some ts)
    (heq : ts = a._window_start + a.window_size)
    (halign : a._window_start = (k : ℚ) * a.window_size) :
    a.add_row row = .ok
      (.summary [WindowAggregator.aggregate a.time_column a._rows],
       { a with
         _window_start := a._window_start + a.window_size,
         _rows := [row],
         _result := WindowAggregator.aggregate a.time_column [row] }) := by
  obtain ⟨tv, hget, hnum⟩ : ∃ tv, dictGet row a.time_column = some tv ∧ numOf tv = some ts := by
    cases hg : dictGet row a.time_column with
    | none => rw [hg] at hts; simp [Option.bind] at hts
    | some tv => rw [hg] at hts; exact ⟨tv, rfl, hts⟩
  have hsne : a.window_size ≠ 0 := ne_of_gt hpos
  have hdiv : ts / a.window_size = ((k + 1 : ℤ) : ℚ) := by
    rw [heq, halign]
    field_simp
    ring
  have hfloor : (⌊ts / a.window_size⌋ : ℚ) * a.window_size =
      a._window_start + a.window_size := by
    rw [hdiv, Int.floor_intCast, halign]
    push_cast
    ring
  unfold WindowAggregator.add_row
  rw [hget]
  simp only [hnum, hty, if_false]
  rw [if_pos (le_of_eq heq.symm)]
  unfold WindowAggregator.flush
  rw [if_neg hne]
  simp [hfloor]

/-- Witness for the C4 theorem at a concrete input. -/
theorem add_row_boundary_next_window_witness :
    WindowAggregator.add_row ⟨"tumbling", 10, "t", [], 0, [[("v", Value.int 1), ("t", Value.int 5)]]⟩
        [("t", Value.int 10)] = .ok
      (.summary [WindowAggregator.aggregate "t" [[("v", Value.int 1), ("t", Value.int 5)]]],
       ⟨"tumbling", 10, "t",
        WindowAggregator.aggregate "t" [[("t", Value.int 10)]],
        (0 : ℚ) + 10,
        [[("t", Value.int 10)]]⟩) :=
  add_row_boundary_next_window
    ⟨"tumbling", 10, "t", [], 0, [[("v", Value.int 1), ("t", Value.int 5)]]⟩
    [("t", Value.int 10)] 10 0
    (by decide) (by with_unfolding_all decide) (by decide)
    (by with_unfolding_all decide) (by with_unfolding_all decide)
    (by with_unfolding_all decide)

/-- C7: `flush` on an aggregator with no buffered rows returns the empty
list (never a zero-valued summary) and leaves the state unchanged; with
buffered rows it returns the single summary of the open window — with a
`count` of at least 1 — regardless of any window boundary, clearing the
buffer. -/
theorem flush_empty_or_summary (a : WindowAggregator) :
    (a._rows = [] → a.flush = ([], a)) ∧
    (a._rows ≠ [] →
      a.flush = ([WindowAggregator.aggregate a.time_column a._rows],
                 { a with _rows := [], _result := [] }) ∧
      dictGet (WindowAggregator.aggregate a.time_column a._rows) "count" =
        some (a._rows.length : ℚ) ∧
      1 ≤ (a._rows.length : ℚ)) := by
  constructor
  · intro h
    simp [WindowAggregator.flush, h]
  · intro h
    refine ⟨by simp [WindowAggregator.flush, h], dictGet_aggregate_count .., ?_⟩
    have : 1 ≤ a._rows.length := List.length_pos.mpr h
    exact_mod_cast this

/-- Witness for the C7 theorem at concrete inputs (one empty, one with a
buffered row). -/
theorem flush_empty_or_summary_witness :
    WindowAggregator.flush ⟨"tumbling", 10, "t", [], 0, []⟩ =
      ([], ⟨"tumbling", 10, "t", [], 0, []⟩) ∧
    WindowAggregator.flush ⟨"tumbling", 10, "t", [], 0, [[("t", Value.int 1)]]⟩ =
      ([WindowAggregator.aggregate "t" [[("t", Value.int 1)]]],
       ⟨"tumbling", 10, "t", [], 0, []⟩) :=
  ⟨(flush_empty_or_summary ⟨"tumbling", 10, "t", [], 0, []⟩).1 rfl,
   ((flush_empty_or_summary ⟨"tumbling", 10, "t", [], 0, [[("t", Value.int 1)]]⟩).2
     (by decide)).1⟩

section BuildRecordLemmas

lemma parse_row_ne_nil (p : CSVParser) (s : String) : p.parse_row s ≠ [] := by
  unfold CSVParser.parse_row
  simp

lemma dictKeys_append (d1 d2 : Dict Value) :
    dictKeys (d1 ++ d2) = dictKeys d1 ++ dictKeys d2 :=
  List.map_append ..

lemma insertCells_spec : ∀ (ks cs : List String) (d : Dict Value),
    (∀ k ∈ ks, dictGet d k = none) → ks.Nodup →
    CSVStream.insertCells ks cs d = d ++ (ks.zip (cs.map CSVStream._value)) := by
  intro ks
  induction ks with
  | nil =>
      intro cs d _ _
      cases cs <;> simp [CSVStream.insertCells]
  | cons k ks ih =>
      intro cs d hfresh hnd
      cases cs with
      | nil => simp [CSVStream.insertCells]
      | cons c cs =>
          rw [List.nodup_cons] at hnd
          have hdk : dictGet d k = none := hfresh k (List.mem_cons_self ..)
          have hins : dictInsert d k (CSVStream._value c) = d ++ [(k, CSVStream._value c)] :=
            dictInsert_fresh d k _ hdk
          have hfresh2 : ∀ k2 ∈ ks, dictGet (d ++ [(k, CSVStream._value c)]) k2 = none := by
            intro k2 hk2
            rw [dictGet_append, hfresh k2 (List.mem_cons_of_mem _ hk2)]
            have hne : k ≠ k2 := fun hc => hnd.1 (hc ▸ hk2)
            simp [dictGet, hne]
          show CSVStream.insertCells ks cs (dictInsert d k (CSVStream._value c)) = _
          rw [hins, ih cs _ hfresh2 hnd.2]
          simp [List.append_assoc]

lemma backfill_spec : ∀ (ks : List String) (d : Dict Value),
    (∀ k ∈ ks, dictGet d k = none) → ks.Nodup →
    CSVStream.backfill ks d = d ++ ks.map (fun k => (k, Value.text "")) := by
  intro ks
  induction ks with
  | nil => intro d _ _; simp [CSVStream.backfill]
  | cons k ks ih =>
      intro d hfresh hnd
      rw [List.nodup_cons] at hnd
      have hins : dictInsert d k (Value.text "") = d ++ [(k, Value.text "")] :=
        dictInsert_fresh d k _ (hfresh k (List.mem_cons_self ..))
      have hfresh2 : ∀ k2 ∈ ks, dictGet (d ++ [(k, Value.text "")]) k2 = none := by
        intro k2 hk2
        rw [dictGet_append, hfresh k2 (List.mem_cons_of_mem _ hk2)]
        have hne : k ≠ k2 := fun hc => hnd.1 (hc ▸ hk2)
        simp [dictGet, hne]
      show CSVStream.backfill ks (dictInsert d k (Value.text "")) = _
      rw [hins, ih _ hfresh2 hnd.2]
      simp [List.append_assoc]

lemma dictKeys_cons (k : String) (v : Value) (d : Dict Value) :
    dictKeys ((k, v) :: d) = k :: dictKeys d := rfl

lemma dictKeys_zip (ks : List String) (vs : List Value) :
    dictKeys (ks.zip vs) = ks.take vs.length := by
  induction ks generalizing vs with
  | nil => simp [dictKeys]
  | cons k ks ih =>
      cases vs with
      | nil => simp [dictKeys]
      | cons v vs =>
          rw [List.zip_cons_cons, dictKeys_cons, ih]
          rfl

/-- Characterization of `buildRecord` under a duplicate-free header: the
kept cells zipped against the header, followed by the empty-text backfill
of the remaining header names. -/
lemma buildRecord_eq (head cells : List String) (hnd : head.Nodup) :
    CSVStream.buildRecord head cells =
      head.zip (cells.map CSVStream._value) ++
      (head.drop cells.length).map (fun k => (k, Value.text "")) := by
  unfold CSVStream.buildRecord
  rw [insertCells_spec head cells [] (fun k _ => rfl) hnd, List.nil_append]
  apply backfill_spec
  · intro k hk
    apply dictGet_eq_none_of_not_mem
    rw [dictKeys_zip, List.length_map]
    intro hmem
    exact (List.disjoint_take_drop hnd le_rfl) hmem hk
  · exact (List.drop_sublist _ _).nodup hnd

lemma dictKeys_buildRecord (head cells : List String) (hnd : head.Nodup) :
    dictKeys (CSVStream.buildRecord head cells) = head := by
  rw [buildRecord_eq head cells hnd, dictKeys_append, dictKeys_zip, List.length_map]
  have hdk : dictKeys ((head.drop cells.length).map (fun k => (k, Value.text ""))) =
      head.drop cells.length := by
    unfold dictKeys
    rw [List.map_map]
    have hcomp : (Prod.fst ∘ fun k : String => (k, Value.text "")) = id := rfl
    rw [hcomp, List.map_id]
  rw [hdk, List.take_append_drop]

lemma dictGet_buildRecord (head cells : List String) (hnd : head.Nodup)
    (j : Fin head.length) :
    dictGet (CSVStream.buildRecord head cells) (head.get j) =
      some (if hj : (j : ℕ) < cells.length
            then CSVStream._value (cells.get ⟨(j : ℕ), hj⟩)
            else .text "") := by
  have hkeys : (dictKeys (CSVStream.buildRecord head cells)).Nodup := by
    rw [dictKeys_buildRecord head cells hnd]
    exact hnd
  apply dictGet_of_mem_nodup _ _ _ _ hkeys
  rw [buildRecord_eq head cells hnd]
  by_cases hj : (j : ℕ) < cells.length
  · rw [dif_pos hj]
    apply List.mem_append_left
    have hz : (j : ℕ) < (head.zip (cells.map CSVStream._value)).length := by
      rw [List.length_zip, List.length_map]
      exact lt_min j.isLt hj
    have hm := List.getElem_mem hz
    rw [List.getElem_zip] at hm
    simpa using hm
  · rw [dif_neg hj]
    apply List.mem_append_right
    push_neg at hj
    have hd : (j : ℕ) - cells.length < (head.drop cells.length).length := by
      rw [List.length_drop]
      have := j.isLt
      omega
    have hmem := List.getElem_mem hd
    have hidx : cells.length + ((j : ℕ) - cells.length) = (j : ℕ) := by omega
    have heq : (head.drop cells.length)[(j : ℕ) - cells.length] = head.get j := by
      rw [List.getElem_drop]
      simp only [hidx]
      simp
    exact List.mem_map.mpr ⟨(head.drop cells.length)[(j : ℕ) - cells.length], hmem,
      by rw [heq]⟩

end BuildRecordLemmas

/-- C9: with a (duplicate-free) header configured, every row yielded by
`iter_rows` obeys the header-shape policy: cells beyond the header length
are dropped, header positions with no corresponding cell are bound to the
empty text, and the yielded mapping's keys are exactly the header's column
names, in order. -/
theorem iter_rows_header_shape (p : CSVParser) (hl : String) (rest : List String)
    (hnd : (p.parse_row hl).Nodup) :
    ∃ out, CSVStream.iter_rows ⟨p, true⟩ (hl :: rest) = .ok out ∧
      ∀ ro ∈ out, HeaderShape (p.parse_row hl) ro := by
  refine ⟨_, rfl, ?_⟩
  intro ro hro
  obtain ⟨row, hrow, hro2⟩ := List.mem_map.mp hro
  exact ⟨p.parse_row row, parse_row_ne_nil p row, hro2.symm,
    dictKeys_buildRecord _ _ hnd, fun j => dictGet_buildRecord _ _ hnd j⟩

/-- Witness for the C9 theorem at a concrete input. -/
theorem iter_rows_header_shape_witness :
    ∃ out, CSVStream.iter_rows ⟨stdCSV, true⟩ ("a,b,c" :: ["1,2"]) = .ok out ∧
      ∀ ro ∈ out, HeaderShape (stdCSV.parse_row "a,b,c") ro :=
  iter_rows_header_shape stdCSV "a,b,c" ["1,2"] (by decide)
